import Mathlib

/-!
Verification development for a Tetris-style falling-block engine
(repository `tetris_rust_bevy_ver`, file `src/main.rs`).

The repository's modules `game_constants`, `game_types` and `components`
are not present under `src/`; their declarations (board dimensions, the
cell/board types, the `Piece` and `Position` records) are modelled from
the specification, as marked on each such definition.  All executable
logic (`get_block_matrix`, `can_move`, the landing commit inside
`move_piece_down`, `spawn_initial_piece`, `clear_lines`,
`update_gravity_speed`, `From<PieceType> for Piece`) is translated
directly from `src/main.rs`.

Machine integers: `isize` coordinates become `Int`; the `u32` score,
level and line counters become `Nat` updated modulo `2 ^ 32`; the `u16`
orientation masks become `Nat` (only bits 0–15 are ever consulted).
`Vec` indexing, which panics out of bounds in Rust, is modelled twice:
a total variant using `List.getD`/`List.set` (used by most theorems) and
a checked variant returning `Option` (`none` = panic), used to state the
memory-safety claim that the guards make every access in bounds.
-/

namespace TetrisVer

/-- Modelled from the spec: the palette of the absent `game_color` re-export
in `game_types` is the 9-color enum of `src/game_color.rs` (which is
present in `src/` and is copied here verbatim). -/
inductive GameColor where
  | Red | Green | Blue | Yellow | Cyan | Orange | Purple | Gray | Pink
deriving DecidableEq, Repr

/-- Modelled from the spec: a cell is either empty or occupied with a color
(spec §3 Cell); the `game_types` module that declares `Presence` is absent
from `src/`. -/
inductive Presence where
  | No
  | Yes (color : GameColor)
deriving DecidableEq, Repr

/-- Modelled from the spec: `GameMap` (absent `game_types` module) is the
board, an ordered sequence of rows, each row a sequence of cells
(spec §3 Board); in the source it is indexed `game_map.0[y][x]` and
supports `remove`/`insert`, i.e. a growable vector of rows. -/
abbrev GameMap := List (List Presence)

/-- Modelled from the spec: board width, 10 (spec §3 Board); the
`game_constants` module declaring `NUM_BLOCKS_X` is absent from `src/`. -/
def NUM_BLOCKS_X : Nat := 10

/-- Modelled from the spec: board height, 20 (spec §3 Board); the
`game_constants` module declaring `NUM_BLOCKS_Y` is absent from `src/`. -/
def NUM_BLOCKS_Y : Nat := 20

/-- Modelled from the spec: the 7 tetromino kinds (spec §3 PieceType);
declared in the absent `game_types` module. -/
inductive PieceType where
  | L | J | S | Z | T | I | O
deriving DecidableEq, Repr

/-- Modelled from the spec: the live piece record of the absent
`components` module: the 4 cached 16-bit orientation masks (`states`),
the canonical color, and the rotation index `current_state`, which is 0
for a freshly constructed piece (spec §3 Piece, §4.3). -/
structure Piece where
  states : List Nat
  color : GameColor
  current_state : Nat
deriving DecidableEq, Repr

/-- Modelled from the spec: the integer anchor of the piece's 4×4 local
frame (spec §3 Position); declared in the absent `components` module,
with `isize` coordinates in the source. -/
structure Position where
  x : Int
  y : Int
deriving DecidableEq, Repr

/-- Mask selected by the rotation index: `piece.states[piece.current_state]`
in the source (the index is always in `[0,4)` per spec §4.3; out-of-range
indices default to 0 here). -/
def currentMask (piece : Piece) : Nat :=
  piece.states.getD piece.current_state 0

/-- Embeds `get_block_matrix` (main.rs lines 143–151): the loop sets
`res[i/4][i%4]` to `Yes(Red)` exactly when bit `15 − i` of the 16-bit mask
is set, so row `my`, column `mx` reads bit `15 − (4*my + mx)`.  The color
is hard-coded `Red` in the source ("Default to Red for now, will use
piece.color later"). -/
def get_block_matrix (num : Nat) : List (List Presence) :=
  (List.range 4).map fun my =>
    (List.range 4).map fun mx =>
      if num.testBit (15 - (4 * my + mx)) then Presence.Yes GameColor.Red
      else Presence.No

/-- The 16 local-frame coordinates `(my, mx)` in the order the nested
`for my in 0..4 { for mx in 0..4 }` loops of the source visit them. -/
def allPairs : List (Nat × Nat) :=
  (List.range 4).flatMap fun my => (List.range 4).map fun mx => (my, mx)

/-- Board cell read `game_map.0[y][x]` in total form: out-of-range
coordinates yield the empty cell (the checked variant below models the
Rust panic instead). -/
def getCellD (m : GameMap) (y x : Int) : Presence :=
  (m.getD y.toNat []).getD x.toNat Presence.No

/-- Occupancy test on a cell (`if let Presence::Yes(_) = ...`). -/
def occupied : Presence → Bool
  | Presence.Yes _ => true
  | Presence.No => false

/-- Embeds the loop body of `can_move` (main.rs lines 190–213), one local
cell at a time with the source's early returns: a set cell (source:
`if let Presence::Yes(_) = piece_matrix[my][mx]`, here the `occupied`
test) first checks `block_y >= NUM_BLOCKS_Y` (bottom boundary, hard
stop), then — only when `block_x` is inside `[0, NUM_BLOCKS_X)` and
`block_y ≥ 0` — the occupancy of the target board cell.  There is no
side-boundary branch: a set cell whose column is out of range falls
through to the next cell. -/
def can_moveGo (mtx : List (List Presence)) (px ny : Int) (m : GameMap) :
    List (Nat × Nat) → Bool
  | [] => true
  | (my, mx) :: rest =>
    if occupied ((mtx.getD my []).getD mx Presence.No) then
      if (NUM_BLOCKS_Y : Int) ≤ ny + my then false
      else if 0 ≤ px + mx ∧ px + mx < (NUM_BLOCKS_X : Int) ∧ 0 ≤ ny + my then
        if occupied (getCellD m (ny + my) (px + mx)) then false
        else can_moveGo mtx px ny m rest
      else can_moveGo mtx px ny m rest
    else can_moveGo mtx px ny m rest

/-- Embeds `can_move` (main.rs lines 190–213): the candidate anchor is
`(current_pos.x, new_y)`; `current_pos.y` is never read. -/
def can_move (piece : Piece) (current_pos : Position) (new_y : Int) (m : GameMap) : Bool :=
  can_moveGo (get_block_matrix (currentMask piece)) current_pos.x new_y m allPairs

/-- Per-cell collision flag of `can_move`: the local cell is set and either
its absolute row is at or below the bottom, or it targets an occupied
in-bounds board cell.  `can_moveGo` returns `false` exactly when some
visited cell has this flag. -/
def badBitAt (mtx : List (List Presence)) (px ny : Int) (m : GameMap) (my mx : Nat) : Bool :=
  occupied ((mtx.getD my []).getD mx Presence.No) &&
    (if (NUM_BLOCKS_Y : Int) ≤ ny + my then true
     else if 0 ≤ px + mx ∧ px + mx < (NUM_BLOCKS_X : Int) ∧ 0 ≤ ny + my then
       occupied (getCellD m (ny + my) (px + mx))
     else false)

/-- Pair form of `badBitAt`, for scanning the cell list. -/
def badBit (mtx : List (List Presence)) (px ny : Int) (m : GameMap) : Nat × Nat → Bool :=
  fun p => badBitAt mtx px ny m p.1 p.2

/-- Proposition form of a collision cause at local cell `(my, mx)` for the
piece's current mask at anchor `(px, ny)`: the mask bit is set and the
cell maps to absolute row ≥ 20, or to an occupied in-bounds board cell. -/
def CollideCause (piece : Piece) (px ny : Int) (m : GameMap) (my mx : Nat) : Prop :=
  my < 4 ∧ mx < 4 ∧ (currentMask piece).testBit (15 - (4 * my + mx)) = true ∧
    ((NUM_BLOCKS_Y : Int) ≤ ny + my ∨
      (0 ≤ px + mx ∧ px + mx < (NUM_BLOCKS_X : Int) ∧ 0 ≤ ny + my ∧
        ny + my < (NUM_BLOCKS_Y : Int) ∧
        occupied (getCellD m (ny + my) (px + mx)) = true))

/-- Board cell write `game_map.0[y][x] = v` in total form (out-of-range
writes are dropped; the commit guard makes them unreachable). -/
def setCell (m : GameMap) (y x : Nat) (v : Presence) : GameMap :=
  m.set y ((m.getD y []).set x v)

/-- Embeds the landing loop of `move_piece_down` (main.rs lines 164–176):
every set cell of the piece matrix whose absolute coordinates pass the
bounds guard `map_x ≥ 0 && map_x < NUM_BLOCKS_X && map_y ≥ 0 && map_y <
NUM_BLOCKS_Y` is written into the board with the matrix cell's color. -/
def commitGo (mtx : List (List Presence)) (px py : Int) :
    GameMap → List (Nat × Nat) → GameMap
  | m, [] => m
  | m, (my, mx) :: rest =>
    if occupied ((mtx.getD my []).getD mx Presence.No) then
      if 0 ≤ px + mx ∧ px + mx < (NUM_BLOCKS_X : Int) ∧
          0 ≤ py + my ∧ py + my < (NUM_BLOCKS_Y : Int) then
        commitGo mtx px py
          (setCell m (py + my).toNat (px + mx).toNat ((mtx.getD my []).getD mx Presence.No))
          rest
      else commitGo mtx px py m rest
    else commitGo mtx px py m rest

/-- The landing commit of `move_piece_down`: burn the current matrix of the
piece into the board at its anchor. -/
def commitPiece (piece : Piece) (pos : Position) (m : GameMap) : GameMap :=
  commitGo (get_block_matrix (currentMask piece)) pos.x pos.y m allPairs

/-- The spawn anchor `Position { x: NUM_BLOCKS_X as isize / 2 - 1, y: 0 }`
used by `spawn_initial_piece` (line 70) and by the respawn inside
`move_piece_down` (line 181). -/
def spawnPos : Position :=
  { x := (NUM_BLOCKS_X : Int) / 2 - 1, y := 0 }

/-- Outcome of one `move_piece_down` tick: either the piece moved down, or
it landed — the board absorbed it and a new piece was inserted at the
spawn anchor. -/
inductive MoveOutcome where
  | moved (pos : Position)
  | landed (m : GameMap) (next : Piece) (pos : Position)
deriving DecidableEq, Repr

/-- Embeds `move_piece_down` (main.rs lines 153–187) for a live piece:
try `y+1` via `can_move`; on failure commit the piece into the board and
spawn the next piece (`next`, standing for `Piece::random()`) at the spawn
anchor.  The source performs no collision check and no game-over
transition on this respawn path. -/
def move_piece_down (piece : Piece) (pos : Position) (m : GameMap) (next : Piece) :
    MoveOutcome :=
  if can_move piece pos (pos.y + 1) m then
    MoveOutcome.moved { x := pos.x, y := pos.y + 1 }
  else
    MoveOutcome.landed (commitPiece piece pos m) next spawnPos

/-- Embeds `spawn_initial_piece` (main.rs lines 68–82) for a given piece
(standing for `Piece::random()`): place it at the spawn anchor, test
`can_move` there, and return `none` (the GameOver transition) when it
collides. -/
def spawn_initial_piece (piece : Piece) (m : GameMap) : Option (Piece × Position) :=
  if can_move piece spawnPos spawnPos.y m then some (piece, spawnPos) else none

/-- Embeds `From<PieceType> for Piece` (main.rs lines 216–260): the shape
table of 4 orientation masks and the canonical color per type;
`current_state` comes from `Piece::default()`, i.e. 0. -/
def pieceFrom : PieceType → Piece
  | PieceType.L => { states := [17504, 1856, 1570, 736], color := GameColor.Orange, current_state := 0 }
  | PieceType.J => { states := [8800, 1136, 1604, 3616], color := GameColor.Blue, current_state := 0 }
  | PieceType.S => { states := [17952, 1728, 17952, 1728], color := GameColor.Green, current_state := 0 }
  | PieceType.Z => { states := [9792, 3168, 9792, 3168], color := GameColor.Red, current_state := 0 }
  | PieceType.T => { states := [17984, 3648, 19520, 19968], color := GameColor.Purple, current_state := 0 }
  | PieceType.I => { states := [17476, 3840, 17476, 3840], color := GameColor.Cyan, current_state := 0 }
  | PieceType.O => { states := [1632, 1632, 1632, 1632], color := GameColor.Yellow, current_state := 0 }

/-- Number of set bits among the 16 bits of an orientation mask. -/
def popcount16 (n : Nat) : Nat :=
  ((List.range 16).filter fun i => n.testBit i).length

/-- Embeds the full-row scan of `clear_lines` (main.rs lines 302–313): row
`y` is full when all 10 of its cells are occupied. -/
def isRowFull (row : List Presence) : Bool :=
  (List.range NUM_BLOCKS_X).all fun x => occupied (row.getD x Presence.No)

/-- The indices `rows_to_clear` collected by `clear_lines`, in increasing
order (the scan runs `y` from 0 to `NUM_BLOCKS_Y`). -/
def fullRows (m : GameMap) : List Nat :=
  (List.range NUM_BLOCKS_Y).filter fun y => isRowFull (m.getD y [])

/-- A fresh empty row, `vec![Presence::No; NUM_BLOCKS_X]`. -/
def emptyRow : List Presence :=
  List.replicate NUM_BLOCKS_X Presence.No

/-- Embeds the clearing loop of `clear_lines` (main.rs lines 316–322): for
each recorded index, in the given order, `remove` that row and `insert` an
empty row at index 0 (the source iterates `rows_to_clear` in reverse). -/
def clearRows : GameMap → List Nat → GameMap
  | m, [] => m
  | m, y :: rest => clearRows (emptyRow :: m.eraseIdx y) rest

/-- Embeds `clear_lines` (main.rs lines 297–333) including the progression
update (lines 324–332): with `n` the number of detected full rows, when
`n > 0` the score gains `n * 100`, the carried counter gains `n`, and if
the updated counter reaches 10 the level advances by 1 and the counter
resets to 0.  The `u32` fields update modulo `2 ^ 32`. -/
def clear_lines (m : GameMap) (score level counter : Nat) :
    GameMap × Nat × Nat × Nat :=
  if 0 < (fullRows m).length then
    if 10 ≤ (counter + (fullRows m).length) % 2 ^ 32 then
      (clearRows m (fullRows m).reverse,
        (score + (fullRows m).length * 100) % 2 ^ 32,
        (level + 1) % 2 ^ 32, 0)
    else
      (clearRows m (fullRows m).reverse,
        (score + (fullRows m).length * 100) % 2 ^ 32,
        level, (counter + (fullRows m).length) % 2 ^ 32)
  else
    (clearRows m (fullRows m).reverse, score, level, counter)

/-- Embeds the interval computed by `update_gravity_speed` (main.rs lines
424–433): `(1.0 - level * 0.05).max(0.1)` seconds.  The source computes in
`f32`; the decimal literals are modelled as exact rationals. -/
def gravity_interval (level : Nat) : ℚ :=
  max (1 / 10 : ℚ) (1 - (level : ℚ) * (5 / 100))

/-- Well-formed board: exactly `NUM_BLOCKS_Y` rows of `NUM_BLOCKS_X` cells
(spec §3 Board invariant). -/
def WF (m : GameMap) : Prop :=
  m.length = NUM_BLOCKS_Y ∧ ∀ r ∈ m, r.length = NUM_BLOCKS_X

/-- Checked board cell read: `none` models the Rust panic of
`game_map.0[y][x]` when an index is out of bounds. -/
def lookupCellChk (m : GameMap) (y x : Nat) : Option Presence :=
  match m[y]? with
  | none => none
  | some row => row[x]?

/-- Checked board cell write: `none` models the Rust panic of
`game_map.0[y][x] = v` when an index is out of bounds. -/
def setCellChk (m : GameMap) (y x : Nat) (v : Presence) : Option GameMap :=
  match m[y]? with
  | none => none
  | some row => if x < row.length then some (m.set y (row.set x v)) else none

/-- Checked variant of `can_moveGo`: identical control flow, but the board
read inside the guard uses the panicking indexing model. -/
def can_moveChkGo (mtx : List (List Presence)) (px ny : Int) (m : GameMap) :
    List (Nat × Nat) → Option Bool
  | [] => some true
  | (my, mx) :: rest =>
    if occupied ((mtx.getD my []).getD mx Presence.No) then
      if (NUM_BLOCKS_Y : Int) ≤ ny + my then some false
      else if 0 ≤ px + mx ∧ px + mx < (NUM_BLOCKS_X : Int) ∧ 0 ≤ ny + my then
        (lookupCellChk m (ny + my).toNat (px + mx).toNat).bind fun cell =>
          if occupied cell then some false else can_moveChkGo mtx px ny m rest
      else can_moveChkGo mtx px ny m rest
    else can_moveChkGo mtx px ny m rest

/-- Checked variant of `can_move`. -/
def can_moveChk (piece : Piece) (current_pos : Position) (new_y : Int) (m : GameMap) :
    Option Bool :=
  can_moveChkGo (get_block_matrix (currentMask piece)) current_pos.x new_y m allPairs

/-- Checked variant of `commitGo`: the guarded write uses the panicking
indexing model. -/
def commitChkGo (mtx : List (List Presence)) (px py : Int) :
    GameMap → List (Nat × Nat) → Option GameMap
  | m, [] => some m
  | m, (my, mx) :: rest =>
    if occupied ((mtx.getD my []).getD mx Presence.No) then
      if 0 ≤ px + mx ∧ px + mx < (NUM_BLOCKS_X : Int) ∧
          0 ≤ py + my ∧ py + my < (NUM_BLOCKS_Y : Int) then
        (setCellChk m (py + my).toNat (px + mx).toNat
            ((mtx.getD my []).getD mx Presence.No)).bind fun m2 =>
          commitChkGo mtx px py m2 rest
      else commitChkGo mtx px py m rest
    else commitChkGo mtx px py m rest

/-- Checked variant of `commitPiece`. -/
def commitChk (piece : Piece) (pos : Position) (m : GameMap) : Option GameMap :=
  commitChkGo (get_block_matrix (currentMask piece)) pos.x pos.y m allPairs

/-- The empty 20×10 board. -/
def emptyBoard : GameMap :=
  List.replicate NUM_BLOCKS_Y (List.replicate NUM_BLOCKS_X Presence.No)

/-- The O piece as built by the shape table. -/
def oPiece : Piece :=
  pieceFrom PieceType.O

/-- A 20×10 board in which exactly rows 3 and 7 are full (red) and row 2
carries a single blue marker cell in column 0 (so its removal is
observable); all other rows are empty. -/
def boardRows37 : GameMap :=
  (List.range 20).map fun y =>
    if y = 3 ∨ y = 7 then List.replicate 10 (Presence.Yes GameColor.Red)
    else if y = 2 then Presence.Yes GameColor.Blue :: List.replicate 9 Presence.No
    else List.replicate 10 Presence.No

/-- A 20×10 board whose rows 0–2 are occupied (gray) in columns 3–8: the
spawn anchor's frame is blocked, but the floor area is free. -/
def blockedBoard : GameMap :=
  (List.range 20).map fun y =>
    if y < 3 then
      (List.range 10).map fun x =>
        if 3 ≤ x ∧ x ≤ 8 then Presence.Yes GameColor.Gray else Presence.No
    else List.replicate 10 Presence.No

/-- The board obtained when an O piece lands at anchor (4, 18) on
`blockedBoard`. -/
def landedBoard : GameMap :=
  commitPiece oPiece { x := 4, y := 18 } blockedBoard

/-- A 20×10 board in which exactly rows 0–3 are full (red). -/
def boardFourFull : GameMap :=
  (List.range 20).map fun y =>
    if y < 4 then List.replicate 10 (Presence.Yes GameColor.Red)
    else List.replicate 10 Presence.No

lemma getD_map_range {α : Type} (f : Nat → α) (d : α) {i k : Nat} (h : i < k) :
    ((List.range k).map f).getD i d = f i := by
  rw [List.getD_eq_getElem?_getD, List.getElem?_map, List.getElem?_range h]
  rfl

lemma getElem?_eq_some_getD {α : Type} (l : List α) (n : Nat) (d : α)
    (h : n < l.length) : l[n]? = some (l.getD n d) := by
  rw [List.getD_eq_getElem?_getD, List.getElem?_eq_getElem h]
  rfl

lemma getD_mem {α : Type} {l : List α} {n : Nat} (d : α) (h : n < l.length) :
    l.getD n d ∈ l := by
  rw [List.getD_eq_getElem?_getD, List.getElem?_eq_getElem h]
  exact List.getElem_mem h

lemma get_block_matrix_cell (n : Nat) {my mx : Nat} (h1 : my < 4) (h2 : mx < 4) :
    ((get_block_matrix n).getD my []).getD mx Presence.No =
      if n.testBit (15 - (4 * my + mx)) then Presence.Yes GameColor.Red
      else Presence.No := by
  rw [get_block_matrix, getD_map_range _ _ h1, getD_map_range _ _ h2]

lemma mem_allPairs {my mx : Nat} : (my, mx) ∈ allPairs ↔ my < 4 ∧ mx < 4 := by
  simp only [allPairs, List.mem_flatMap, List.mem_map, List.mem_range]
  constructor
  · rintro ⟨a, ha, b, hb, hab⟩
    cases hab
    exact ⟨ha, hb⟩
  · rintro ⟨h1, h2⟩
    exact ⟨my, h1, mx, h2, rfl⟩

lemma occupied_matrix_cell (n : Nat) {my mx : Nat} (h1 : my < 4) (h2 : mx < 4) :
    occupied ((get_block_matrix n).getD my [] |>.getD mx Presence.No) =
      n.testBit (15 - (4 * my + mx)) := by
  rw [get_block_matrix_cell n h1 h2]
  by_cases hb : n.testBit (15 - (4 * my + mx)) <;> simp [hb, occupied]

lemma can_moveGo_eq_not_any (mtx : List (List Presence)) (px ny : Int) (m : GameMap)
    (l : List (Nat × Nat)) :
    can_moveGo mtx px ny m l = !(l.any (badBit mtx px ny m)) := by
  induction l with
  | nil => rfl
  | cons p rest ih =>
    obtain ⟨my, mx⟩ := p
    rw [can_moveGo, List.any_cons]
    simp only [badBit, badBitAt]
    by_cases h1 : occupied ((mtx.getD my []).getD mx Presence.No) = true
    · by_cases hy : (NUM_BLOCKS_Y : Int) ≤ ny + my
      · rw [if_pos h1, if_pos hy, h1, if_pos hy]
        simp
      · by_cases hg : 0 ≤ px + mx ∧ px + mx < (NUM_BLOCKS_X : Int) ∧ 0 ≤ ny + my
        · by_cases hocc : occupied (getCellD m (ny + my) (px + mx)) = true
          · rw [if_pos h1, if_neg hy, if_pos hg, if_pos hocc, h1, if_neg hy, if_pos hg, hocc]
            simp
          · have hocc2 : occupied (getCellD m (ny + my) (px + mx)) = false := by
              cases hx : occupied (getCellD m (ny + my) (px + mx))
              · rfl
              · exact absurd hx hocc
            rw [if_pos h1, if_neg hy, if_pos hg, if_neg hocc, h1, if_neg hy, if_pos hg,
              hocc2, ih]
            simp
        · rw [if_pos h1, if_neg hy, if_neg hg, h1, if_neg hy, if_neg hg, ih]
          simp
    · have h1f : occupied ((mtx.getD my []).getD mx Presence.No) = false := by
        cases hx : occupied ((mtx.getD my []).getD mx Presence.No)
        · rfl
        · exact absurd hx h1
      rw [if_neg h1, h1f, ih]
      simp

lemma badBitAt_matrix_iff (piece : Piece) (px ny : Int) (m : GameMap) {my mx : Nat}
    (h1 : my < 4) (h2 : mx < 4) :
    badBitAt (get_block_matrix (currentMask piece)) px ny m my mx = true ↔
      ((currentMask piece).testBit (15 - (4 * my + mx)) = true ∧
        ((NUM_BLOCKS_Y : Int) ≤ ny + my ∨
          (0 ≤ px + mx ∧ px + mx < (NUM_BLOCKS_X : Int) ∧ 0 ≤ ny + my ∧
            ny + my < (NUM_BLOCKS_Y : Int) ∧
            occupied (getCellD m (ny + my) (px + mx)) = true))) := by
  simp only [badBitAt]
  rw [occupied_matrix_cell (currentMask piece) h1 h2, Bool.and_eq_true]
  refine and_congr_right fun _ => ?_
  by_cases hy : (NUM_BLOCKS_Y : Int) ≤ ny + my
  · rw [if_pos hy]
    exact ⟨fun _ => Or.inl hy, fun _ => rfl⟩
  · have hlt : ny + my < (NUM_BLOCKS_Y : Int) := lt_of_not_le hy
    rw [if_neg hy]
    by_cases hg : 0 ≤ px + mx ∧ px + mx < (NUM_BLOCKS_X : Int) ∧ 0 ≤ ny + my
    · rw [if_pos hg]
      constructor
      · intro hocc
        exact Or.inr ⟨hg.1, hg.2.1, hg.2.2, hlt, hocc⟩
      · rintro (h | h)
        · exact absurd h hy
        · exact h.2.2.2.2
    · rw [if_neg hg]
      constructor
      · intro h
        exact Bool.noConfusion h
      · rintro (h | h)
        · exact absurd h hy
        · exact absurd ⟨h.1, h.2.1, h.2.2.1⟩ hg

lemma clearRows_wf : ∀ (ys : List Nat) (m : GameMap),
    m.length = NUM_BLOCKS_Y → (∀ r ∈ m, r.length = NUM_BLOCKS_X) →
    (∀ y ∈ ys, y < NUM_BLOCKS_Y) → WF (clearRows m ys)
  | [], _, hlen, hrows, _ => ⟨hlen, hrows⟩
  | y :: rest, m, hlen, hrows, hys => by
    rw [clearRows]
    have hy : y < NUM_BLOCKS_Y := hys y (List.mem_cons_self y rest)
    have hlen2 : (emptyRow :: m.eraseIdx y).length = NUM_BLOCKS_Y := by
      have : (m.eraseIdx y).length = m.length - 1 := by
        rw [List.length_eraseIdx]
        rw [if_pos (by rw [hlen]; exact hy)]
      simp only [List.length_cons, this, hlen]
      rfl
    have hrows2 : ∀ r ∈ emptyRow :: m.eraseIdx y, r.length = NUM_BLOCKS_X := by
      intro r hr
      rcases List.mem_cons.mp hr with h | h
      · rw [h, emptyRow, List.length_replicate]
      · exact hrows r (List.mem_of_mem_eraseIdx h)
    exact clearRows_wf rest (emptyRow :: m.eraseIdx y) hlen2 hrows2
      fun z hz => hys z (List.mem_cons_of_mem y hz)

lemma lookupCellChk_eq {m : GameMap} (hwf : WF m) {y x : Nat}
    (hy : y < NUM_BLOCKS_Y) (hx : x < NUM_BLOCKS_X) :
    lookupCellChk m y x = some ((m.getD y []).getD x Presence.No) := by
  obtain ⟨hlen, hrows⟩ := hwf
  have hy2 : y < m.length := by rw [hlen]; exact hy
  have hrow : (m.getD y []).length = NUM_BLOCKS_X := hrows _ (getD_mem [] hy2)
  have hx2 : x < (m.getD y []).length := by rw [hrow]; exact hx
  rw [lookupCellChk, getElem?_eq_some_getD m y [] hy2]
  exact getElem?_eq_some_getD _ x Presence.No hx2

lemma setCellChk_eq {m : GameMap} (hwf : WF m) {y x : Nat}
    (hy : y < NUM_BLOCKS_Y) (hx : x < NUM_BLOCKS_X) (v : Presence) :
    setCellChk m y x v = some (setCell m y x v) := by
  obtain ⟨hlen, hrows⟩ := hwf
  have hy2 : y < m.length := by rw [hlen]; exact hy
  have hrow : (m.getD y []).length = NUM_BLOCKS_X := hrows _ (getD_mem [] hy2)
  have hx2 : x < (m.getD y []).length := by rw [hrow]; exact hx
  rw [setCellChk, getElem?_eq_some_getD m y [] hy2]
  simp only [if_pos hx2]
  rfl

lemma WF_setCell {m : GameMap} (hwf : WF m) {y : Nat} (hy : y < NUM_BLOCKS_Y)
    (x : Nat) (v : Presence) : WF (setCell m y x v) := by
  obtain ⟨hlen, hrows⟩ := hwf
  have hy2 : y < m.length := by rw [hlen]; exact hy
  constructor
  · rw [setCell, List.length_set, hlen]
  · intro r hr
    rcases List.mem_or_eq_of_mem_set hr with h | h
    · exact hrows r h
    · rw [h, List.length_set]
      exact hrows _ (getD_mem [] hy2)

lemma can_moveChkGo_eq (mtx : List (List Presence)) (px ny : Int) {m : GameMap}
    (hwf : WF m) (l : List (Nat × Nat)) :
    can_moveChkGo mtx px ny m l = some (can_moveGo mtx px ny m l) := by
  induction l with
  | nil => rfl
  | cons p rest ih =>
    obtain ⟨my, mx⟩ := p
    rw [can_moveChkGo, can_moveGo]
    by_cases h1 : occupied ((mtx.getD my []).getD mx Presence.No) = true
    · rw [if_pos h1, if_pos h1]
      by_cases hy : (NUM_BLOCKS_Y : Int) ≤ ny + my
      · rw [if_pos hy, if_pos hy]
      · rw [if_neg hy, if_neg hy]
        by_cases hg : 0 ≤ px + mx ∧ px + mx < (NUM_BLOCKS_X : Int) ∧ 0 ≤ ny + my
        · rw [if_pos hg, if_pos hg]
          have hyb : (ny + my).toNat < NUM_BLOCKS_Y := by
            have h20 : ny + my < (NUM_BLOCKS_Y : Int) := lt_of_not_le hy
            omega
          have hxb : (px + mx).toNat < NUM_BLOCKS_X := by
            have := hg.2.1
            have := hg.1
            omega
          rw [lookupCellChk_eq hwf hyb hxb, Option.some_bind]
          by_cases hocc :
              occupied ((m.getD (ny + my).toNat []).getD (px + mx).toNat Presence.No) = true
          · rw [if_pos ?hc, if_pos ?hc2]
            case hc => exact hocc
            case hc2 => exact hocc
          · rw [if_neg ?hc, if_neg ?hc2]
            · exact ih
            case hc => exact hocc
            case hc2 => exact hocc
        · rw [if_neg hg, if_neg hg]
          exact ih
    · rw [if_neg h1, if_neg h1]
      exact ih

lemma commitChkGo_eq (mtx : List (List Presence)) (px py : Int) :
    ∀ (l : List (Nat × Nat)) {m : GameMap}, WF m →
      commitChkGo mtx px py m l = some (commitGo mtx px py m l) ∧
      WF (commitGo mtx px py m l)
  | [], m, hwf => ⟨rfl, hwf⟩
  | (my, mx) :: rest, m, hwf => by
    rw [commitChkGo, commitGo]
    by_cases h1 : occupied ((mtx.getD my []).getD mx Presence.No) = true
    · rw [if_pos h1, if_pos h1]
      by_cases hg : 0 ≤ px + mx ∧ px + mx < (NUM_BLOCKS_X : Int) ∧
          0 ≤ py + my ∧ py + my < (NUM_BLOCKS_Y : Int)
      · rw [if_pos hg, if_pos hg]
        have hyb : (py + my).toNat < NUM_BLOCKS_Y := by
          have := hg.2.2.1
          have := hg.2.2.2
          omega
        have hxb : (px + mx).toNat < NUM_BLOCKS_X := by
          have := hg.1
          have := hg.2.1
          omega
        rw [setCellChk_eq hwf hyb hxb, Option.some_bind]
        exact commitChkGo_eq mtx px py rest (WF_setCell hwf hyb _ _)
      · rw [if_neg hg, if_neg hg]
        exact commitChkGo_eq mtx px py rest hwf
    · rw [if_neg h1, if_neg h1]
      exact commitChkGo_eq mtx px py rest hwf

/-- Claim C1 (refuted by evaluation, code bug): on a board with exactly rows
3 and 7 full, one call to `clear_lines` does NOT remove both full rows.
The scan correctly finds rows `[3, 7]`, but the clearing loop iterates in
reverse while inserting an empty row at index 0 after each removal, which
shifts the remaining recorded indices: it removes old row 7, then — after
the top insertion — index 3 now holds old row 2, so the non-full old row 2
(marked blue here) is removed instead of the full old row 3, which
survives, still full, at index 4. -/
theorem clear_lines_reverse_shift_bug :
    fullRows boardRows37 = [3, 7] ∧
    (clear_lines boardRows37 0 0 0).1.getD 4 [] =
      List.replicate 10 (Presence.Yes GameColor.Red) ∧
    isRowFull ((clear_lines boardRows37 0 0 0).1.getD 4 []) = true ∧
    (∀ r ∈ (clear_lines boardRows37 0 0 0).1,
      r ≠ Presence.Yes GameColor.Blue :: List.replicate 9 Presence.No) := by
  decide

/-- Claim C2, counterexample: the O piece at anchor x = −2 has its set cell
(my, mx) = (1, 1) at absolute column −1 < 0 with absolute row 1 inside
[0, 20), yet `can_move` returns true on the empty board: the source has no
side-boundary collision branch, contradicting the claim that such a
position yields false. -/
theorem can_move_ignores_side_bounds_cex :
    (currentMask oPiece).testBit (15 - (4 * 1 + 1)) = true ∧
    ((-2 : Int) + (1 : Nat) < 0) ∧
    ((0 : Int) ≤ (0 : Int) + (1 : Nat)) ∧ ((0 : Int) + (1 : Nat) < (NUM_BLOCKS_Y : Int)) ∧
    can_move oPiece { x := -2, y := 0 } 0 emptyBoard = true := by
  decide

/-- Claim C2 as amended: `can_move` performs no side-boundary test at all;
whenever it returns false, some set cell of the current mask maps to
absolute row ≥ 20 or to an occupied in-bounds board cell (an out-of-range
column alone never causes a collision). -/
theorem can_move_false_gives_cause (piece : Piece) (pos : Position) (new_y : Int)
    (m : GameMap) (h : can_move piece pos new_y m = false) :
    ∃ my mx, CollideCause piece pos.x new_y m my mx := by
  rw [can_move, can_moveGo_eq_not_any] at h
  have hany :
      allPairs.any (badBit (get_block_matrix (currentMask piece)) pos.x new_y m) = true := by
    cases hx : allPairs.any (badBit (get_block_matrix (currentMask piece)) pos.x new_y m)
    · rw [hx] at h
      exact Bool.noConfusion h
    · rfl
  obtain ⟨p, hmem, hbad⟩ := List.any_eq_true.mp hany
  obtain ⟨my, mx⟩ := p
  obtain ⟨h1, h2⟩ := mem_allPairs.mp hmem
  obtain ⟨h3, h4⟩ := (badBitAt_matrix_iff piece pos.x new_y m h1 h2).mp hbad
  refine ⟨my, mx, ?_⟩
  unfold CollideCause
  exact ⟨h1, h2, h3, h4⟩

/-- Witness for `can_move_false_gives_cause`: the O piece at anchor (4, 18)
on the empty board collides (its cells reach row 20), and the theorem
produces a collision cause. -/
theorem can_move_false_gives_cause_witness :
    ∃ my mx, CollideCause oPiece (4 : Int) 18 emptyBoard my mx :=
  can_move_false_gives_cause oPiece { x := 4, y := 0 } 18 emptyBoard (by decide)

/-- Claim C3 (refuted by evaluation, code bug): committing a landed L piece
(canonical color Orange) writes Red into the board, because
`get_block_matrix` hard-codes `Presence::Yes(GameColor::Red)` for every
set cell ("Default to Red for now, will use piece.color later") and the
landing loop of `move_piece_down` copies that matrix color.  The in-bounds
guard of the claim does hold; the written color does not. -/
theorem commit_color_hardcoded_red :
    (pieceFrom PieceType.L).color = GameColor.Orange ∧
    getCellD (commitPiece (pieceFrom PieceType.L) { x := 3, y := 17 } emptyBoard) 17 4 =
      Presence.Yes GameColor.Red ∧
    GameColor.Red ≠ GameColor.Orange := by
  decide

/-- Claim C4 (refuted by evaluation, code bug): when an O piece lands at
(4, 18) on a board whose spawn area (rows 0–2, columns 3–8) is occupied,
`move_piece_down` commits the piece and inserts the next piece at the
spawn anchor unconditionally — even though `can_move` reports a collision
there, as the initial-spawn path (`spawn_initial_piece`, which returns
GameOver) would have detected.  The respawn path performs no collision
check and no GameOver transition. -/
theorem respawn_without_collision_check :
    move_piece_down oPiece { x := 4, y := 18 } blockedBoard oPiece =
      MoveOutcome.landed landedBoard oPiece spawnPos ∧
    can_move oPiece spawnPos spawnPos.y landedBoard = false ∧
    spawn_initial_piece oPiece landedBoard = none := by
  decide

/-- Claim C5 (confirmed): the shape table carries exactly the 28 claimed
orientation masks and the 7 canonical colors, and every mask has exactly
4 set bits. -/
theorem shape_table_masks_colors :
    ((pieceFrom PieceType.L).states = [17504, 1856, 1570, 736] ∧
      (pieceFrom PieceType.L).color = GameColor.Orange) ∧
    ((pieceFrom PieceType.J).states = [8800, 1136, 1604, 3616] ∧
      (pieceFrom PieceType.J).color = GameColor.Blue) ∧
    ((pieceFrom PieceType.S).states = [17952, 1728, 17952, 1728] ∧
      (pieceFrom PieceType.S).color = GameColor.Green) ∧
    ((pieceFrom PieceType.Z).states = [9792, 3168, 9792, 3168] ∧
      (pieceFrom PieceType.Z).color = GameColor.Red) ∧
    ((pieceFrom PieceType.T).states = [17984, 3648, 19520, 19968] ∧
      (pieceFrom PieceType.T).color = GameColor.Purple) ∧
    ((pieceFrom PieceType.I).states = [17476, 3840, 17476, 3840] ∧
      (pieceFrom PieceType.I).color = GameColor.Cyan) ∧
    ((pieceFrom PieceType.O).states = [1632, 1632, 1632, 1632] ∧
      (pieceFrom PieceType.O).color = GameColor.Yellow) ∧
    ∀ t : PieceType, ∀ s ∈ (pieceFrom t).states, popcount16 s = 4 := by
  refine ⟨⟨rfl, rfl⟩, ⟨rfl, rfl⟩, ⟨rfl, rfl⟩, ⟨rfl, rfl⟩, ⟨rfl, rfl⟩, ⟨rfl, rfl⟩,
    ⟨rfl, rfl⟩, ?_⟩
  intro t
  cases t <;> decide

/-- Claim C6 (confirmed): `can_move` returns false whenever some set cell
of the current orientation mask maps to absolute row ≥ 20, or to an
in-bounds board cell that is already occupied. -/
theorem can_move_rejects_bottom_and_occupied (piece : Piece) (pos : Position)
    (new_y : Int) (m : GameMap)
    (h : ∃ my mx, CollideCause piece pos.x new_y m my mx) :
    can_move piece pos new_y m = false := by
  obtain ⟨my, mx, hc⟩ := h
  unfold CollideCause at hc
  obtain ⟨h1, h2, h3, h4⟩ := hc
  rw [can_move, can_moveGo_eq_not_any]
  have hbad : badBit (get_block_matrix (currentMask piece)) pos.x new_y m (my, mx) = true :=
    (badBitAt_matrix_iff piece pos.x new_y m h1 h2).mpr ⟨h3, h4⟩
  have hany :
      allPairs.any (badBit (get_block_matrix (currentMask piece)) pos.x new_y m) = true :=
    List.any_eq_true.mpr ⟨(my, mx), mem_allPairs.mpr ⟨h1, h2⟩, hbad⟩
  rw [hany]
  rfl

/-- Witness for `can_move_rejects_bottom_and_occupied`: the O piece at
anchor (4, 18) has its set cell (2, 1) at absolute row 20 ≥ 20, so the
move is rejected. -/
theorem can_move_rejects_bottom_and_occupied_witness :
    can_move oPiece { x := 4, y := 0 } 18 emptyBoard = false :=
  can_move_rejects_bottom_and_occupied oPiece { x := 4, y := 0 } 18 emptyBoard
    ⟨2, 1, by unfold CollideCause; decide⟩

/-- Claim C7 (confirmed): when `clear_lines` counts n > 0 full rows, the
score gains exactly n·100 and the carried counter gains n; if the updated
counter reaches 10, the level gains exactly 1 and the counter resets to 0
(excess lines discarded), otherwise the level is unchanged and the counter
keeps the sum (stated away from u32 wraparound). -/
theorem clear_lines_progression (m : GameMap) (score level counter : Nat)
    (hn : 0 < (fullRows m).length)
    (hs : score + (fullRows m).length * 100 < 2 ^ 32)
    (hc : counter + (fullRows m).length < 2 ^ 32)
    (hl : level + 1 < 2 ^ 32) :
    (clear_lines m score level counter).2.1 = score + (fullRows m).length * 100 ∧
    (10 ≤ counter + (fullRows m).length →
      (clear_lines m score level counter).2.2.1 = level + 1 ∧
      (clear_lines m score level counter).2.2.2 = 0) ∧
    (counter + (fullRows m).length < 10 →
      (clear_lines m score level counter).2.2.1 = level ∧
      (clear_lines m score level counter).2.2.2 = counter + (fullRows m).length) := by
  unfold clear_lines
  rw [if_pos hn, Nat.mod_eq_of_lt hc]
  by_cases h10 : 10 ≤ counter + (fullRows m).length
  · rw [if_pos h10]
    exact ⟨Nat.mod_eq_of_lt hs,
      fun _ => ⟨Nat.mod_eq_of_lt hl, rfl⟩,
      fun hlt => absurd h10 (Nat.not_le.mpr hlt)⟩
  · rw [if_neg h10]
    exact ⟨Nat.mod_eq_of_lt hs,
      fun hge => absurd hge h10,
      fun _ => ⟨rfl, rfl⟩⟩

/-- Witness for `clear_lines_progression`: four full rows cleared with the
carried counter at 8 give score 400, level 1, counter 0 (the two excess
lines are discarded). -/
theorem clear_lines_progression_witness :
    (clear_lines boardFourFull 0 0 8).2.1 = 0 + (fullRows boardFourFull).length * 100 ∧
    (10 ≤ 8 + (fullRows boardFourFull).length →
      (clear_lines boardFourFull 0 0 8).2.2.1 = 0 + 1 ∧
      (clear_lines boardFourFull 0 0 8).2.2.2 = 0) ∧
    (8 + (fullRows boardFourFull).length < 10 →
      (clear_lines boardFourFull 0 0 8).2.2.1 = 0 ∧
      (clear_lines boardFourFull 0 0 8).2.2.2 = 8 + (fullRows boardFourFull).length) :=
  clear_lines_progression boardFourFull 0 0 8 (by decide) (by decide) (by decide) (by decide)

/-- Claim C8 (confirmed): `clear_lines` maps a well-formed 20×10 board to a
well-formed 20×10 board — every removal of a detected row is paired with
the insertion of one fresh 10-cell row at the top, so the row count and
every row length are preserved. -/
theorem clear_lines_preserves_shape (m : GameMap) (score level counter : Nat)
    (hwf : WF m) : WF (clear_lines m score level counter).1 := by
  obtain ⟨hlen, hrows⟩ := hwf
  have hys : ∀ y ∈ (fullRows m).reverse, y < NUM_BLOCKS_Y := by
    intro y hy
    rw [List.mem_reverse] at hy
    exact List.mem_range.mp (List.mem_filter.mp hy).1
  have hres : WF (clearRows m (fullRows m).reverse) :=
    clearRows_wf (fullRows m).reverse m hlen hrows hys
  unfold clear_lines
  by_cases c1 : 0 < (fullRows m).length
  · rw [if_pos c1]
    by_cases c2 : 10 ≤ (counter + (fullRows m).length) % 2 ^ 32
    · rw [if_pos c2]
      exact hres
    · rw [if_neg c2]
      exact hres
  · rw [if_neg c1]
    exact hres

/-- Witness for `clear_lines_preserves_shape`: the board with rows 3 and 7
full is still a 20×10 board after one resolution. -/
theorem clear_lines_preserves_shape_witness :
    WF (clear_lines boardRows37 0 0 0).1 :=
  clear_lines_preserves_shape boardRows37 0 0 0 (by unfold WF; decide)

/-- Claim C9 (confirmed): the gravity interval is max(0.1, 1 − level·0.05)
seconds — 1.0 at level 0, 0.5 at level 10, 0.1 at level 20 and still 0.1
at level 30, clamped at the 0.1 floor and never nonpositive (the source
computes in f32; the literals are modelled as exact rationals). -/
theorem gravity_interval_values :
    gravity_interval 0 = 1 ∧ gravity_interval 10 = 1 / 2 ∧
    gravity_interval 20 = 1 / 10 ∧ gravity_interval 30 = 1 / 10 ∧
    ∀ level : Nat, (1 / 10 : ℚ) ≤ gravity_interval level ∧ 0 < gravity_interval level := by
  refine ⟨?_, ?_, ?_, ?_, fun level =>
    ⟨le_max_left _ _, lt_of_lt_of_le (by norm_num) (le_max_left _ _)⟩⟩
  all_goals norm_num [gravity_interval, max_def]

/-- Claim C10 (confirmed): on a well-formed 20×10 board, the checked
variants of the collision test and of the landing commit — in which every
board index is verified and an out-of-bounds access is a panic (`none`) —
never panic and agree with the total embeddings: the bounds guards in
`can_move` and in the commit loop of `move_piece_down` keep every board
access at row ∈ [0, 20) and column ∈ [0, 10) for arbitrary piece data and
arbitrary (possibly negative) anchor coordinates. -/
theorem board_access_guarded (piece : Piece) (pos : Position) (new_y : Int)
    (m : GameMap) (hwf : WF m) :
    can_moveChk piece pos new_y m = some (can_move piece pos new_y m) ∧
    commitChk piece pos m = some (commitPiece piece pos m) :=
  ⟨can_moveChkGo_eq (get_block_matrix (currentMask piece)) pos.x new_y hwf allPairs,
    (commitChkGo_eq (get_block_matrix (currentMask piece)) pos.x pos.y allPairs hwf).1⟩

/-- Witness for `board_access_guarded`: checked and total variants agree
for the O piece at a negative anchor on the empty board. -/
theorem board_access_guarded_witness :
    can_moveChk oPiece { x := -2, y := 5 } 5 emptyBoard =
      some (can_move oPiece { x := -2, y := 5 } 5 emptyBoard) ∧
    commitChk oPiece { x := -2, y := 5 } emptyBoard =
      some (commitPiece oPiece { x := -2, y := 5 } emptyBoard) :=
  board_access_guarded oPiece { x := -2, y := 5 } 5 emptyBoard (by unfold WF; decide)

end TetrisVer
